import Mathlib

/-!
Verification of `dist2src/core.py` (dist-git to source-git conversion).

The git-facing part of the program (`GitRepo`, `Dist2Src.rebase_patches`,
`Dist2Src.convert`) manipulates branches of a git repository.  We embed the
git state shallowly: a branch is the list of commits reachable from its tip,
newest first; a commit is identified by its message together with an abstract
patch identity (`patchId`), standing for git's patch-id — two commits carry
the same `patchId` exactly when they introduce the same textual change, which
is the equivalence `git rebase` uses to skip commits that are already present
upstream.  Cherry-picking or replaying a commit produces a commit with the
same message and patch identity, so we reuse the commit value itself.
Patch application is modelled as always clean (no merge conflicts), which is
the path the program itself assumes: any conflicting git invocation raises
and aborts the conversion.
-/

namespace Dist2Src

/-- Commit message of the post-expansion artifact commit that
`Dist2Src.rebase_patches` relocates: the literal compared against
`head.commit.message` in `core.py` (git reports the message with a trailing
newline). -/
def prepSentinel : String := "Changes after running %prep\n"

/-- A git commit: its message and its abstract patch identity. -/
structure Commit where
  msg : String
  patchId : Nat
deriving DecidableEq

/-- State of the source-git repository around `rebase_patches`:
the temporary raw branch (`TEMP_SG_BRANCH`, `none` once deleted), the
destination branch, and the target of the movable `sg-start` tag.
Branches are commit lists, newest first. -/
structure SGState where
  raw : Option (List Commit)
  dest : List Commit
  tag : Option Commit
deriving DecidableEq

/-- Whether a commit's change is already present on a branch, by patch
identity.  `git rebase` drops a replayed commit exactly when its patch-id
already occurs upstream; in this program that is the pristine-unpack root
commit, whose content was cherry-picked onto the destination branch as its
base commit. -/
def alreadyApplied (dest : List Commit) (c : Commit) : Bool :=
  dest.any (fun d => d.patchId == c.patchId)

/-- Embedding of `Dist2Src.rebase_patches(from_branch, to_branch)`.

Mirrors `core.py` line by line on the git state:
* check out `from_branch` (fails if the branch is missing or empty);
* if the tip commit's message is the `prepSentinel`, cherry-pick that single
  commit onto `to_branch`, force-move the `sg-start` tag to it, and
  `git reset --hard HEAD^` the raw branch (which fails when the tip is the
  root commit, having no parent);
* `git rebase --root --onto to_branch`: replay the raw branch's commits onto
  the destination, skipping the ones already applied there by patch identity;
* `git merge --ff-only` the rebased branch into `to_branch` (a fast-forward,
  since the rebase made the raw branch a descendant of `to_branch`);
* delete the raw branch. -/
def rebase_patches (st : SGState) : Option SGState :=
  match st.raw with
  | none => none
  | some [] => none
  | some (tip :: rest) =>
    if tip.msg = prepSentinel then
      if rest = [] then none
      else
        let dest2 := tip :: st.dest
        some { raw := none
               dest := rest.filter (fun c => !alreadyApplied dest2 c) ++ dest2
               tag := some tip }
    else
      some { raw := none
             dest := (tip :: rest).filter (fun c => !alreadyApplied st.dest c) ++ st.dest
             tag := st.tag }

/-- Embedding of `GitRepo.cherry_pick_base(from_branch, to_branch)`:
count the commits reachable from `from_branch` (`num_commits`), check out
`to_branch` (created with `-B`), and cherry-pick
`from_branch~(num_commits - 1)` — the commit at offset `num_commits - 1`
from the tip — onto it.  Returns the new content of `to_branch`, or `none`
when the ancestor reference does not exist (git error). -/
def cherry_pick_base (from_branch to_branch : List Commit) : Option (List Commit) :=
  let num_commits := from_branch.length
  match from_branch.get? (num_commits - 1) with
  | none => none
  | some c => some (c :: to_branch)

/-- Embedding of `get_build_dir(path)`: given the list of subdirectories of
`path / "BUILD"`, fail when there is more than one, fail when there is none,
and otherwise return the single one (`build_dirs[0]`). -/
def get_build_dir (build_dirs : List String) : Except String String :=
  if build_dirs.length > 1 then
    Except.error "More than one directory found"
  else
    match build_dirs with
    | [] => Except.error "No subdirectory found"
    | d :: _ => Except.ok d

/-- Number of commits on `branch` strictly above (newer than) the commit
`t`: the patch commits, when `t` is the `sg-start` tag target. -/
def commitsAboveTag (branch : List Commit) (t : Commit) : Nat :=
  (branch.takeWhile (fun c => c != t)).length

/-- Glob matching worker for `pathlib.Path.glob` patterns as used in this
program: a pattern is literal characters and `*`, where `*` matches any
(possibly empty) run of characters.  The patterns the program evaluates
(`*`, `*.tar.gz`, `*.tar.xz`, `*.tar.bz2`, `*.patch`, and the hook glob
`nagios-agents-metadata-*.tar.gz`) use no other glob syntax.  The `fuel`
argument bounds the recursion by `pattern length + name length`, keeping
the function structurally recursive. -/
def globMatchAux : Nat → List Char → List Char → Bool
  | _, [], [] => true
  | _, [], _ :: _ => false
  | 0, _, _ => false
  | fuel + 1, '*' :: ps, s =>
    globMatchAux fuel ps s ||
      (match s with
       | [] => false
       | _ :: cs => globMatchAux fuel ('*' :: ps) cs)
  | _ + 1, _ :: _, [] => false
  | fuel + 1, p :: ps, c :: cs => p == c && globMatchAux fuel ps cs

/-- Whether file name `name` matches glob pattern `pat`. -/
def globMatch (pat name : String) : Bool :=
  globMatchAux (pat.length + name.length) pat.toList name.toList

/-- The compressed-archive patterns excluded by `_copy_files` when
`ignore_tarballs` is set. -/
def tarballGlobs : List String := ["*.tar.gz", "*.tar.xz", "*.tar.bz2"]

/-- Whether `_copy_files(origin, dest, glob, ignore_tarballs, ignore_patches,
include_files)` selects origin file `name` for copying.  Mirrors the set
computation in `core.py`: `present_files` is the files matching `glob`,
shrunk by the tarball patterns when `ignore_tarballs` and by `*.patch` when
`ignore_patches`; `files_to_copy` is the union of the `include_files`
matches (when that argument is a non-empty list, i.e. truthy) with the
remaining `present_files`. -/
def copy_files_selects (glob : String) (ignore_tarballs ignore_patches : Bool)
    (include_files : Option (List String)) (name : String) : Bool :=
  (match include_files with
   | some pats => pats.any (fun p => globMatch p name)
   | none => false)
  || (globMatch glob name
      && !(ignore_tarballs && tarballGlobs.any (fun p => globMatch p name))
      && !(ignore_patches && globMatch "*.patch" name))

/-- Embedding of `_copy_files`.  A directory is a map from file name to
`some content`;  `shutil.copy2` overwrites `dest / file.name` with the
origin file's content for every selected file, and leaves every other
destination file alone. -/
def copy_files (origin dest : String → Option String) (glob : String)
    (ignore_tarballs ignore_patches : Bool)
    (include_files : Option (List String)) : String → Option String :=
  fun name =>
    if (origin name).isSome
        && copy_files_selects glob ignore_tarballs ignore_patches include_files name then
      origin name
    else
      dest name

/-- Python's `\s` whitespace class over the ASCII range, as matched by
`re.sub(r"\s+-q", ...)`. -/
def isPySpace (c : Char) : Bool :=
  c == ' ' || c == '\t' || c == '\n' || c == '\r' || c == '\x0b' || c == '\x0c'

/-- Prefix test on character lists (`str.startswith`). -/
def startsWithL : List Char → List Char → Bool
  | [], _ => true
  | _ :: _, [] => false
  | p :: ps, c :: cs => p == c && startsWithL ps cs

/-- Prefix test on strings (`str.startswith`). -/
def strStartsWith (pre s : String) : Bool :=
  startsWithL pre.toList s.toList

/-- Embedding of `str.replace(pat, repl)`: replace every non-overlapping occurrence of
`pat`, scanning left to right.  `fuel` bounds the recursion by the length
of the scanned list (each step consumes at least one character when `pat`
is non-empty, and `pat` is `"%setup"` at the only call site). -/
def replaceAllAux (pat repl : List Char) : Nat → List Char → List Char
  | _, [] => []
  | 0, s => s
  | fuel + 1, c :: cs =>
    if pat ≠ [] && startsWithL pat (c :: cs) then
      repl ++ replaceAllAux pat repl fuel ((c :: cs).drop pat.length)
    else
      c :: replaceAllAux pat repl fuel cs

/-- Python `str.replace(pat, repl)` on character lists. -/
def replaceAllL (pat repl s : List Char) : List Char :=
  replaceAllAux pat repl s.length s

/-- Embedding of `re.sub(r"\s+-q", "", s)`: scanning left to right, a match starts at a
whitespace character whose maximal whitespace run is immediately followed
by `-q` (greedy `\s+` with backtracking can only succeed on the full run);
the run and the `-q` are removed and scanning resumes after them.  `fuel`
bounds the recursion by the length of the scanned list. -/
def subQAux : Nat → List Char → List Char
  | _, [] => []
  | 0, s => s
  | fuel + 1, c :: cs =>
    if isPySpace c && startsWithL ['-', 'q'] ((c :: cs).dropWhile isPySpace) then
      subQAux fuel (((c :: cs).dropWhile isPySpace).drop 2)
    else
      c :: subQAux fuel cs

/-- Python `re.sub(r"\s+-q", "", s)` on character lists. -/
def subQL (s : List Char) : List Char :=
  subQAux s.length s

/-- The rewrite `Dist2Src._enforce_autosetup` applies to a `%prep` line that
starts with `%setup`: `line.replace("%setup", "%autosetup -N")` followed by
`re.sub(r"\s+-q", "", ...)`. -/
def enforce_autosetup_line (line : List Char) : List Char :=
  subQL (replaceAllL "%setup".toList "%autosetup -N".toList line)

/-- The loop body of `Dist2Src._enforce_autosetup` over the `%prep` section
lines.  Iterating in order over the (un-mutated originals of the) lines:
a line starting with `%autosetup` or `%autopatch` returns early — `none`,
the spec file is not saved; a line starting with `%setup` is rewritten in
place; when the loop completes, `s.save()` writes the section back —
`some` of the rewritten lines. -/
def enforce_autosetup_lines : List (List Char) → Option (List (List Char))
  | [] => some []
  | line :: rest =>
    if startsWithL "%autosetup".toList line || startsWithL "%autopatch".toList line then
      none
    else
      match enforce_autosetup_lines rest with
      | none => none
      | some rest2 =>
        some ((if startsWithL "%setup".toList line then enforce_autosetup_line line else line)
          :: rest2)

/-- Embedding of `Dist2Src._enforce_autosetup` on the `%prep` section of the
spec file: `none` means the function returned before `s.save()` and the file
on disk is unmodified; `some lines` means the file was saved with the
rewritten section. -/
def enforce_autosetup (prep_lines : List String) : Option (List String) :=
  (enforce_autosetup_lines (prep_lines.map String.toList)).map
    (fun ls => ls.map (fun l => String.mk l))

/-- Basename of a path given as its components (`pathlib.Path.name`). -/
def pathName (p : List String) : String :=
  (p.getLast?).getD ""

/-- Embedding of the `Dist2Src.package_name` property: the basename of
`dist_git_path` when that is set, else the basename of `source_git_path`
when that is set, else a `RuntimeError`. -/
def package_name (dist_git_path source_git_path : Option (List String)) :
    Except String String :=
  match dist_git_path with
  | some p => Except.ok (pathName p)
  | none =>
    match source_git_path with
    | some p => Except.ok (pathName p)
    | none =>
      Except.error "I'm sorry but nor dist_git_path nor source_git_path are defined."

/-- Embedding of the `Dist2Src.relative_specfile_path` property:
`f"SPECS/{self.package_name}.spec"`. -/
def relative_specfile_path (dist_git_path source_git_path : Option (List String)) :
    Except String String :=
  (package_name dist_git_path source_git_path).map
    (fun n => "SPECS/" ++ n ++ ".spec")

/-- A hook action from the `HOOKS` table: either a shell snippet
(`after-prep`) or a list of extra globs to copy (`include-files`). -/
inductive HookAction where
  | shell (cmd : String)
  | includeGlobs (globs : List String)
deriving DecidableEq

/-- Hook phase name `AFTER_PREP_HOOK`. -/
def AFTER_PREP_HOOK : String := "after-prep"

/-- Hook phase name `INCLUDE_SOURCES`. -/
def INCLUDE_SOURCES : String := "include-files"

/-- The static `HOOKS` table of `core.py`: kernel's `after-prep` shell
snippet and pacemaker's `include-files` globs. -/
def HOOKS : List (String × List (String × HookAction)) :=
  [("kernel",
    [(AFTER_PREP_HOOK, HookAction.shell
      ("set -e; shopt -s dotglob nullglob && cd BUILD/kernel-4.18.0-*.el8/ && "
        ++ "mv ./linux-4.18.0-*.el8.x86_64/* . && rmdir ./linux-4.18.0-*.el8.x86_64 && "
        ++ "git add . && git commit --amend --no-edit"))]),
   ("pacemaker",
    [(INCLUDE_SOURCES, HookAction.includeGlobs ["nagios-agents-metadata-*.tar.gz"])])]

/-- Embedding of `get_hook(package_name, hook_name)`:
`HOOKS.get(package_name, {}).get(hook_name, None)`. -/
def get_hook (package hook_name : String) : Option HookAction :=
  match HOOKS.lookup package with
  | none => none
  | some hooks => hooks.lookup hook_name

/-- The `include_files` argument `Dist2Src.copy_all_sources` passes to
`_copy_files`: the package's `include-files` hook
(`get_hook(self.package_name, INCLUDE_SOURCES)`), where the package name
is resolved by `package_name`. -/
def copy_all_sources_include_files (dist_git_path source_git_path : Option (List String)) :
    Except String (Option (List String)) :=
  (package_name dist_git_path source_git_path).map
    (fun n =>
      match get_hook n INCLUDE_SOURCES with
      | some (HookAction.includeGlobs gs) => some gs
      | _ => none)

/-- The default exclusion applied by `Dist2Src.copy_all_sources`, which calls
`_copy_files` with `ignore_tarballs=True` and `ignore_patches=True`: a file
name is excluded when it matches a compressed-archive pattern or `*.patch`. -/
def copy_all_sources_excluded (name : String) : Bool :=
  tarballGlobs.any (fun p => globMatch p name) || globMatch "*.patch" name

/-- Concrete commits used to evaluate the model at specific inputs:
the pristine-unpack root produced by expansion, -/
def rootC : Commit := ⟨"Initial commit\n", 0⟩

/-- the structural base commit cherry-picked from the root (same patch
identity, by construction of `cherry_pick_base`), -/
def baseC : Commit := ⟨"Initial commit\n", 0⟩

/-- the commit adding auxiliary sources, tagged by `convert`, -/
def srcC : Commit := ⟨"Add sources defined in the spec file\n", 3⟩

/-- a patch commit produced by expansion, -/
def p1C : Commit := ⟨"Apply patch1.patch\n", 11⟩

/-- and a post-expansion artifact commit carrying the sentinel message. -/
def artifactC : Commit := ⟨"Changes after running %prep\n", 20⟩

/-! ## Helper lemmas -/

/-- A commit's change is already on a branch iff some commit there shares its
patch identity. -/
theorem alreadyApplied_iff (dest : List Commit) (c : Commit) :
    alreadyApplied dest c = true ↔ ∃ d ∈ dest, d.patchId = c.patchId := by
  simp [alreadyApplied]

/-- Taking while `p` holds across a block that satisfies `p` followed by an
element that does not stops exactly at that element. -/
theorem takeWhile_append_length {α : Type} (p : α → Bool) (l₁ l₂ : List α) (x : α)
    (h₁ : ∀ c ∈ l₁, p c = true) (hx : p x = false) :
    ((l₁ ++ x :: l₂).takeWhile p).length = l₁.length := by
  induction l₁ with
  | nil => simp [List.takeWhile_cons, hx]
  | cons a as ih =>
    have ha : p a = true := h₁ a (List.mem_cons_self a as)
    simp [List.takeWhile_cons, ha,
      ih (fun c hc => h₁ c (List.mem_cons_of_mem a hc))]

/-- Matching with the pattern `*` and enough fuel accepts every name. -/
theorem globMatchAux_star (s : List Char) (k : Nat) :
    globMatchAux (s.length + k + 1) ['*'] s = true := by
  induction s generalizing k with
  | nil => simp [globMatchAux]
  | cons c cs ih =>
    have hlen : (c :: cs).length + k + 1 = (cs.length + (k + 1)) + 1 := by
      simp only [List.length_cons]
      omega
    rw [hlen]
    have h2 : globMatchAux (cs.length + (k + 1)) ['*'] cs = true := ih k
    simp [globMatchAux, h2]

/-- The glob pattern `*` matches every file name. -/
theorem globMatch_star (name : String) : globMatch "*" name = true := by
  have h1 : "*".length = 1 := rfl
  have h2 : name.length = name.toList.length := rfl
  unfold globMatch
  rw [show "*".length + name.length = name.toList.length + 0 + 1 from by rw [h1, h2]; omega]
  exact globMatchAux_star name.toList 0

/-- The early-return loop of `_enforce_autosetup` fails to reach the save iff
some section line starts with `%autosetup` or `%autopatch`. -/
theorem enforce_autosetup_lines_eq_none (ls : List (List Char)) :
    enforce_autosetup_lines ls = none ↔
      ∃ l ∈ ls, (startsWithL "%autosetup".toList l
        || startsWithL "%autopatch".toList l) = true := by
  induction ls with
  | nil => simp [enforce_autosetup_lines]
  | cons l rest ih =>
    by_cases hl : (startsWithL "%autosetup".toList l
        || startsWithL "%autopatch".toList l) = true
    · have hunf : enforce_autosetup_lines (l :: rest) = none := by
        unfold enforce_autosetup_lines
        rw [if_pos hl]
      rw [hunf]
      exact iff_of_true rfl ⟨l, List.mem_cons_self l rest, hl⟩
    · have hunf : enforce_autosetup_lines (l :: rest)
          = match enforce_autosetup_lines rest with
            | none => none
            | some rest2 =>
              some ((if startsWithL "%setup".toList l = true
                then enforce_autosetup_line l else l) :: rest2) := by
        simp only [enforce_autosetup_lines]
        rw [if_neg hl]
      rw [hunf]
      cases hrec : enforce_autosetup_lines rest with
      | none =>
        refine iff_of_true rfl ?_
        rcases ih.mp hrec with ⟨a, ha, hp⟩
        exact ⟨a, List.mem_cons_of_mem l ha, hp⟩
      | some rest2 =>
        refine iff_of_false (by simp) ?_
        rintro ⟨a, ha, hp⟩
        rcases List.mem_cons.mp ha with rfl | ha'
        · exact hl hp
        · have hnone : enforce_autosetup_lines rest = none := ih.mpr ⟨a, ha', hp⟩
          rw [hrec] at hnone
          cases hnone

/-- A commit whose patch identity differs from every commit of a branch is
not already applied there. -/
theorem alreadyApplied_eq_false (dest : List Commit) (c : Commit)
    (h : ∀ d ∈ dest, d.patchId ≠ c.patchId) : alreadyApplied dest c = false := by
  simp only [alreadyApplied, List.any_eq_false, beq_iff_eq]
  exact h

/-- Unfolding `rebase_patches` when the raw tip does not carry the sentinel
message: the whole raw chain is rebased onto the destination and
fast-forward-merged, the tag untouched. -/
theorem rebase_patches_eq_plain (tip : Commit) (rest dest : List Commit) (tag : Option Commit)
    (hs : tip.msg ≠ prepSentinel) :
    rebase_patches ⟨some (tip :: rest), dest, tag⟩
      = some ⟨none, (tip :: rest).filter (fun c => !alreadyApplied dest c) ++ dest, tag⟩ := by
  simp only [rebase_patches]
  rw [if_neg hs]

/-- Unfolding `rebase_patches` when the raw tip carries the sentinel message
and sits above at least one commit: the tip is cherry-picked onto the
destination, the tag moved to it, the raw branch reset one back, and the
remainder rebased on top. -/
theorem rebase_patches_eq_sentinel (tip : Commit) (rest dest : List Commit) (tag : Option Commit)
    (hs : tip.msg = prepSentinel) (hr : rest ≠ []) :
    rebase_patches ⟨some (tip :: rest), dest, tag⟩
      = some ⟨none, rest.filter (fun c => !alreadyApplied (tip :: dest) c) ++ (tip :: dest),
          some tip⟩ := by
  simp only [rebase_patches]
  rw [if_pos hs, if_neg hr]

/-! ## Claims -/

/-- C1, counterexample: a conversion whose raw branch tip is the
post-expansion artifact commit (sentinel message).  At entry the `sg-start`
tag points at the "Add sources defined in the spec file" commit (`srcC`, the
destination tip); after `rebase_patches` the tag points at the relocated
artifact commit `artifactC`, which is not the sources commit — refuting the
claim that the tag always ends at the sources commit. -/
theorem C1_tag_moved_counterexample :
    rebase_patches ⟨some [artifactC, p1C, rootC], [srcC, baseC], some srcC⟩
        = some ⟨none, [p1C, artifactC, srcC, baseC], some artifactC⟩
    ∧ artifactC ≠ srcC := by decide

/-- C1 (amended): after `rebase_patches` completes, the `sg-start` tag is
unchanged — still at the "Add sources defined in the spec file" commit where
`convert` placed it — when the raw tip does not carry the post-expansion
artifact sentinel; when it does, the tag is re-pointed at the relocated
artifact commit. -/
theorem C1_tag_placement (tip : Commit) (rest dest : List Commit) (tag : Option Commit)
    (st' : SGState)
    (h : rebase_patches ⟨some (tip :: rest), dest, tag⟩ = some st') :
    st'.tag = if tip.msg = prepSentinel then some tip else tag := by
  unfold rebase_patches at h
  by_cases hs : tip.msg = prepSentinel
  · simp only [hs, if_true] at h ⊢
    by_cases hr : rest = []
    · simp [hr] at h
    · simp only [hr, if_false] at h
      cases h
      rfl
  · simp only [hs, if_false] at h ⊢
    cases h
    rfl

/-- C1, witness: evaluating the amended statement on the counterexample
conversion — the tag ends at the relocated artifact commit. -/
theorem C1_tag_placement_witness :
    SGState.tag ⟨none, [p1C, artifactC, srcC, baseC], some artifactC⟩
      = if artifactC.msg = prepSentinel then some artifactC else some srcC :=
  C1_tag_placement artifactC [p1C, rootC] [srcC, baseC] (some srcC)
    ⟨none, [p1C, artifactC, srcC, baseC], some artifactC⟩ (by decide)

/-- C3: spec-file normalization rewrites the `%prep` line `%setup -q -n foo`
to `%autosetup -N -n foo` (the `-q` flag removed, `-n foo` preserved) and
saves it, while a section whose line is `%autosetup -p1` triggers the early
return: the file is not saved, hence left untouched. -/
theorem C3_setup_normalization :
    enforce_autosetup ["%setup -q -n foo"] = some ["%autosetup -N -n foo"]
    ∧ enforce_autosetup ["%autosetup -p1"] = none := by
  decide

/-- C4: for a branch with a linear history of `n ≥ 1` commits,
`cherry_pick_base` counts the `n` commits reachable from `from_branch` and
cherry-picks the commit at offset `n - 1` from the tip — the oldest reachable
commit — onto the freshly checked-out `to_branch`. -/
theorem C4_cherry_pick_first_commit (from_branch to_branch : List Commit)
    (h : from_branch ≠ []) :
    cherry_pick_base from_branch to_branch
      = some (from_branch.getLast h :: to_branch) := by
  have h1 : from_branch.get? (from_branch.length - 1)
      = some (from_branch.getLast h) := by
    rw [← List.getLast?_eq_get?]
    exact List.getLast?_eq_getLast from_branch h
  show (match from_branch.get? (from_branch.length - 1) with
    | none => none
    | some c => some (c :: to_branch)) = some (from_branch.getLast h :: to_branch)
  rw [h1]

/-- C4, witness: on a two-commit branch the root commit is picked. -/
theorem C4_cherry_pick_first_commit_witness :
    cherry_pick_base [p1C, rootC] []
      = some ([p1C, rootC].getLast (by decide) :: []) :=
  C4_cherry_pick_first_commit [p1C, rootC] [] (by decide)

/-- C5: `get_build_dir` fails iff the number of subdirectories under the
BUILD root is not exactly one (zero and more than one both fail), and with
exactly one it returns that subdirectory. -/
theorem C5_get_build_dir_unique (build_dirs : List String) :
    ((∃ e, get_build_dir build_dirs = Except.error e) ↔ build_dirs.length ≠ 1)
    ∧ (∀ d, build_dirs = [d] → get_build_dir build_dirs = Except.ok d) := by
  match build_dirs with
  | [] =>
    refine ⟨⟨fun _ => by simp, fun _ => ⟨"No subdirectory found", rfl⟩⟩, ?_⟩
    intro d hd
    cases hd
  | [d] =>
    refine ⟨⟨fun he => ?_, fun hne => absurd rfl hne⟩, ?_⟩
    · rcases he with ⟨e, he⟩
      cases he
    · intro d' hd'
      cases hd'
      rfl
  | d :: e :: ds =>
    refine ⟨⟨fun _ => by simp, fun _ => ⟨"More than one directory found", ?_⟩⟩, ?_⟩
    · show get_build_dir (d :: e :: ds) = Except.error "More than one directory found"
      unfold get_build_dir
      rw [if_pos (by simp)]
    · intro d' hd'
      cases hd'

/-- C5, witness: a single subdirectory is returned; the zero case errors. -/
theorem C5_get_build_dir_witness :
    get_build_dir ["acl-2.2.53"] = Except.ok "acl-2.2.53" :=
  (C5_get_build_dir_unique ["acl-2.2.53"]).2 "acl-2.2.53" rfl

/-- C7: copying auxiliary sources is idempotent — running `_copy_files`
twice with identical origin, glob, exclusion flags and include list yields
the same destination directory (same names and contents) as running it
once. -/
theorem C7_copy_files_idempotent (origin dest : String → Option String) (glob : String)
    (ignore_tarballs ignore_patches : Bool) (include_files : Option (List String)) :
    copy_files origin
        (copy_files origin dest glob ignore_tarballs ignore_patches include_files)
        glob ignore_tarballs ignore_patches include_files
      = copy_files origin dest glob ignore_tarballs ignore_patches include_files := by
  funext name
  unfold copy_files
  by_cases h : ((origin name).isSome
      && copy_files_selects glob ignore_tarballs ignore_patches include_files name) = true
  · simp [h]
  · simp [h]

/-- C9: package identity resolution returns the basename of the dist-git
path when defined, else the basename of the source-git path when defined,
and errors iff both are undefined; the resolved name builds the spec-file
path `SPECS/<name>.spec` and is the key for the `include-files` hook
lookup of `copy_all_sources`. -/
theorem C9_package_identity (dg sg : Option (List String)) :
    ((∃ e, package_name dg sg = Except.error e) ↔ (dg = none ∧ sg = none))
    ∧ (∀ p, dg = some p → package_name dg sg = Except.ok (pathName p))
    ∧ (∀ p, dg = none → sg = some p → package_name dg sg = Except.ok (pathName p))
    ∧ (∀ n, package_name dg sg = Except.ok n →
        relative_specfile_path dg sg = Except.ok ("SPECS/" ++ n ++ ".spec")
        ∧ copy_all_sources_include_files dg sg = Except.ok
            (match get_hook n INCLUDE_SOURCES with
             | some (HookAction.includeGlobs gs) => some gs
             | _ => none)) := by
  cases dg with
  | some p =>
    refine ⟨⟨fun he => ?_, fun hb => ?_⟩, fun p' hp' => ?_, fun p' hdg _ => ?_, fun n hn => ?_⟩
    · rcases he with ⟨e, he⟩
      cases he
    · cases hb.1
    · cases hp'
      rfl
    · cases hdg
    · have hn' : n = pathName p := by
        cases hn
        rfl
      subst hn'
      exact ⟨rfl, rfl⟩
  | none =>
    cases sg with
    | some q =>
      refine ⟨⟨fun he => ?_, fun hb => ?_⟩, fun p' hp' => ?_, fun p' _ hq => ?_, fun n hn => ?_⟩
      · rcases he with ⟨e, he⟩
        cases he
      · cases hb.2
      · cases hp'
      · cases hq
        rfl
      · have hn' : n = pathName q := by
          cases hn
          rfl
        subst hn'
        exact ⟨rfl, rfl⟩
    | none =>
      refine ⟨⟨fun _ => ⟨rfl, rfl⟩,
        fun _ => ⟨"I'm sorry but nor dist_git_path nor source_git_path are defined.", rfl⟩⟩,
        fun p' hp' => ?_, fun p' _ hq => ?_, fun n hn => ?_⟩
      · cases hp'
      · cases hq
      · cases hn

/-- C9, witness: with only the dist-git path set, the package name is its
basename. -/
theorem C9_package_identity_witness :
    package_name (some ["rpms", "acl"]) none = Except.ok (pathName ["rpms", "acl"]) :=
  (C9_package_identity (some ["rpms", "acl"]) none).2.1 ["rpms", "acl"] rfl

/-- C6: running reshape on a raw branch with zero non-root commits — only
the pristine-unpack root, whose change is already the destination's base
commit — leaves the destination branch (and so its tip) unchanged: the
rebase replays nothing and the fast-forward merge is a no-op; the temporary
raw branch is deleted and the tag is untouched. -/
theorem C6_zero_patch_reshape (root : Commit) (dest : List Commit) (tag : Option Commit)
    (st' : SGState)
    (hroot : root.msg ≠ prepSentinel)
    (hbase : ∃ d ∈ dest, d.patchId = root.patchId)
    (h : rebase_patches ⟨some [root], dest, tag⟩ = some st') :
    st'.dest = dest ∧ st'.raw = none ∧ st'.tag = tag := by
  have happ : alreadyApplied dest root = true := (alreadyApplied_iff dest root).mpr hbase
  rw [rebase_patches_eq_plain root [] dest tag hroot] at h
  rw [show ([root].filter (fun c => !alreadyApplied dest c)) = [] from by
    simp [List.filter_cons, happ]] at h
  rw [List.nil_append] at h
  injection h with h
  subst h
  exact ⟨rfl, rfl, rfl⟩

/-- C6, witness: a one-commit raw history over a two-commit destination. -/
theorem C6_zero_patch_reshape_witness :
    SGState.dest ⟨none, [srcC, baseC], some srcC⟩ = [srcC, baseC]
    ∧ SGState.raw ⟨none, [srcC, baseC], some srcC⟩ = none
    ∧ SGState.tag ⟨none, [srcC, baseC], some srcC⟩ = some srcC :=
  C6_zero_patch_reshape rootC [srcC, baseC] (some srcC)
    ⟨none, [srcC, baseC], some srcC⟩ (by decide) (by decide) (by decide)

/-- C8: with the parameters `copy_all_sources` uses (`glob="*"`,
`ignore_tarballs=True`, `ignore_patches=True`, hook include list), a file
matching an include-files hook glob is selected even when it also matches an
excluded pattern; a file matching an excluded pattern (`*.tar.gz`,
`*.tar.xz`, `*.tar.bz2`, `*.patch`) and no include glob is not selected;
every other file is selected. -/
theorem C8_copy_selection (inc : List String) (name : String) :
    (inc.any (fun p => globMatch p name) = true →
      copy_files_selects "*" true true (some inc) name = true)
    ∧ (copy_all_sources_excluded name = true →
        inc.any (fun p => globMatch p name) = false →
        copy_files_selects "*" true true (some inc) name = false)
    ∧ (copy_all_sources_excluded name = false →
        copy_files_selects "*" true true (some inc) name = true) := by
  simp only [copy_files_selects, copy_all_sources_excluded]
  refine ⟨fun hinc => ?_, fun hex hinc => ?_, fun hex => ?_⟩
  · rw [hinc, Bool.true_or]
  · rw [hinc, Bool.false_or]
    cases h1 : tarballGlobs.any (fun p => globMatch p name) with
    | true => simp [h1]
    | false =>
      cases h2 : globMatch "*.patch" name with
      | true => simp [h2]
      | false =>
        rw [h1, h2] at hex
        simp at hex
  · cases h1 : tarballGlobs.any (fun p => globMatch p name) with
    | true =>
      rw [h1] at hex
      simp at hex
    | false =>
      cases h2 : globMatch "*.patch" name with
      | true =>
        rw [h1, h2] at hex
        simp at hex
      | false => simp [h1, h2, globMatch_star]

/-- C8, witness: pacemaker's hook glob forces a tarball to be copied. -/
theorem C8_copy_selection_witness :
    copy_files_selects "*" true true (some ["nagios-agents-metadata-*.tar.gz"])
      "nagios-agents-metadata-1.0.tar.gz" = true :=
  (C8_copy_selection ["nagios-agents-metadata-*.tar.gz"]
    "nagios-agents-metadata-1.0.tar.gz").1 (by decide)

/-- C2: for a raw expanded history that is a single linear chain (pristine
root below `nonroot` patch commits, patch identities pairwise distinct and
fresh to the destination, the root's change being the destination's base),
the number of patch commits reshape leaves above the final `sg-start` tag
equals the number of non-root commits, minus one exactly when the raw tip
carried the post-expansion-artifact sentinel and was relocated. -/
theorem C2_patch_commit_count (nonroot : List Commit) (root t : Commit) (dest : List Commit)
    (st' : SGState) (t' : Commit)
    (hroot : root.msg ≠ prepSentinel)
    (hhead : dest.head? = some t)
    (hbase : ∃ d ∈ dest, d.patchId = root.patchId)
    (hfresh : ∀ c ∈ nonroot, ∀ d ∈ dest, d.patchId ≠ c.patchId)
    (hnodup : (nonroot.map Commit.patchId).Nodup)
    (h : rebase_patches ⟨some (nonroot ++ [root]), dest, some t⟩ = some st')
    (ht' : st'.tag = some t') :
    commitsAboveTag st'.dest t' =
      nonroot.length
        - (if nonroot.head?.map Commit.msg = some prepSentinel then 1 else 0) := by
  obtain ⟨dt, rfl⟩ : ∃ dt, dest = t :: dt := by
    cases dest with
    | nil => exact absurd hhead (by simp)
    | cons d ds =>
      refine ⟨ds, ?_⟩
      have hd : d = t := by simpa using hhead
      rw [hd]
  cases nonroot with
  | nil =>
    rw [List.nil_append] at h
    rw [rebase_patches_eq_plain root [] (t :: dt) (some t) hroot] at h
    have happ : alreadyApplied (t :: dt) root = true :=
      (alreadyApplied_iff _ root).mpr hbase
    rw [show ([root].filter (fun c => !alreadyApplied (t :: dt) c)) = [] from by
      simp [List.filter_cons, happ]] at h
    rw [List.nil_append] at h
    injection h with h
    subst h
    injection ht' with ht'
    subst ht'
    simp [commitsAboveTag, List.takeWhile_cons]
  | cons tip nr =>
    have htipnr : ∀ c ∈ nr, tip.patchId ≠ c.patchId := by
      intro c hc he
      have h1 : (tip.patchId :: nr.map Commit.patchId).Nodup := by
        simpa using hnodup
      exact (List.nodup_cons.mp h1).1
        (by rw [he]; exact List.mem_map_of_mem Commit.patchId hc)
    rw [List.cons_append] at h
    by_cases hs : tip.msg = prepSentinel
    · have hr : nr ++ [root] ≠ [] := by simp
      rw [rebase_patches_eq_sentinel tip (nr ++ [root]) (t :: dt) (some t) hs hr] at h
      have h1 : nr.filter (fun c => !alreadyApplied (tip :: t :: dt) c) = nr := by
        apply List.filter_eq_self.mpr
        intro c hc
        have hfa : alreadyApplied (tip :: t :: dt) c = false := by
          apply alreadyApplied_eq_false
          intro d hd
          rcases List.mem_cons.mp hd with rfl | hd'
          · exact htipnr c hc
          · exact hfresh c (List.mem_cons_of_mem tip hc) d hd'
        simp [hfa]
      have h2 : [root].filter (fun c => !alreadyApplied (tip :: t :: dt) c) = [] := by
        have happ : alreadyApplied (tip :: t :: dt) root = true := by
          apply (alreadyApplied_iff _ root).mpr
          rcases hbase with ⟨d, hd, he⟩
          exact ⟨d, List.mem_cons_of_mem tip hd, he⟩
        simp [List.filter_cons, happ]
      rw [List.filter_append, h1, h2, List.append_nil] at h
      injection h with h
      subst h
      injection ht' with ht'
      subst ht'
      have hcount : ((nr ++ tip :: t :: dt).takeWhile (fun c => c != tip)).length
          = nr.length := by
        apply takeWhile_append_length
        · intro c hc
          have hne : c ≠ tip := by
            intro he
            exact htipnr c hc (congrArg Commit.patchId he).symm
          simpa [bne_iff_ne] using hne
        · simp
      show ((nr ++ tip :: t :: dt).takeWhile (fun c => c != tip)).length = _
      rw [hcount]
      simp [hs]
    · rw [rebase_patches_eq_plain tip (nr ++ [root]) (t :: dt) (some t) hs] at h
      have h0 : alreadyApplied (t :: dt) tip = false :=
        alreadyApplied_eq_false _ tip (hfresh tip (List.mem_cons_self tip nr))
      have h1 : nr.filter (fun c => !alreadyApplied (t :: dt) c) = nr := by
        apply List.filter_eq_self.mpr
        intro c hc
        have hfa : alreadyApplied (t :: dt) c = false :=
          alreadyApplied_eq_false _ c (hfresh c (List.mem_cons_of_mem tip hc))
        simp [hfa]
      have h2 : [root].filter (fun c => !alreadyApplied (t :: dt) c) = [] := by
        have happ : alreadyApplied (t :: dt) root = true :=
          (alreadyApplied_iff _ root).mpr hbase
        simp [List.filter_cons, happ]
      rw [List.filter_cons, List.filter_append, h1, h2, List.append_nil] at h
      rw [h0] at h
      simp only [Bool.not_false, if_true] at h
      injection h with h
      subst h
      injection ht' with ht'
      subst ht'
      have hcount : (((tip :: nr) ++ t :: dt).takeWhile (fun c => c != t)).length
          = (tip :: nr).length := by
        apply takeWhile_append_length
        · intro c hc
          have hne : c ≠ t := by
            intro he
            exact hfresh c hc t (List.mem_cons_self t dt) (congrArg Commit.patchId he).symm
          simpa [bne_iff_ne] using hne
        · simp
      show (((tip :: nr) ++ t :: dt).takeWhile (fun c => c != t)).length = _
      rw [hcount]
      have hcond : ¬((tip :: nr).head?.map Commit.msg = some prepSentinel) := by
        simp [hs]
      rw [if_neg hcond, Nat.sub_zero]

/-- C2, witness: a raw chain of one patch commit, one relocated artifact
commit and the root yields exactly one patch commit above the tag. -/
theorem C2_patch_commit_count_witness :
    commitsAboveTag [p1C, artifactC, srcC, baseC] artifactC = 1 := by
  have h := C2_patch_commit_count [artifactC, p1C] rootC srcC [srcC, baseC]
    ⟨none, [p1C, artifactC, srcC, baseC], some artifactC⟩ artifactC
    (by decide) (by decide) (by decide) (by decide) (by decide) (by decide) rfl
  simpa [artifactC, prepSentinel] using h

/-- C10: `_enforce_autosetup` leaves the spec file on disk unmodified (the
save is never reached, and any rewrite already applied in memory to an
earlier `%setup` line is discarded) exactly when some `%prep` line starts
with `%autosetup` or `%autopatch`; the file is written back only when no
such line is encountered. -/
theorem C10_early_return_no_save (prep_lines : List String) :
    enforce_autosetup prep_lines = none ↔
      ∃ line ∈ prep_lines,
        (strStartsWith "%autosetup" line || strStartsWith "%autopatch" line) = true := by
  unfold enforce_autosetup
  rw [Option.map_eq_none']
  rw [enforce_autosetup_lines_eq_none]
  constructor
  · rintro ⟨l, hl, hprop⟩
    rcases List.mem_map.mp hl with ⟨line, hline, rfl⟩
    exact ⟨line, hline, hprop⟩
  · rintro ⟨line, hline, hprop⟩
    exact ⟨line.toList, List.mem_map.mpr ⟨line, hline, rfl⟩, hprop⟩

end Dist2Src
